import Mathlib

set_option maxRecDepth 8000

/-!
Verification of the demand-driven dataflow graph runtime of the akualab/dsp
repository.  Float64 vectors are modelled as lists of rationals; Go errors are
an explicit error type; the `map[int]Value` cache is an association list where
a later entry shadows an earlier one (observationally equal to map overwrite).
-/

namespace Dsp

/-- Errors surfaced by processors: `ErrOOB`, `ErrNoFunc`, the wiring panics of
the registry, and opaque algorithm errors. -/
inductive PErr where
  | oob
  | noFunc
  | notInputter
  | unknownName
  | noFramer
  | fuelOut
  | algo
deriving DecidableEq

/-- An exact rational in lowest terms, standing in for Go's float64 (every
number appearing in the verified examples is exactly representable).  A zero
denominator encodes the float special values that Go division by zero
produces: `⟨s, 0⟩` with `s ≠ 0` is a signed infinity and `⟨0, 0⟩` is NaN. -/
structure Frac where
  num : Int
  den : Nat
deriving DecidableEq

/-- Normalize a fraction to lowest terms with the sign in the numerator. -/
def qnorm (n : Int) (d : Nat) : Frac :=
  let g := n.natAbs.gcd d
  if g = 0 then ⟨0, 0⟩ else ⟨n / (g : Int), d / g⟩

/-- Addition. -/
def qadd (a b : Frac) : Frac :=
  qnorm (a.num * (b.den : Int) + b.num * (a.den : Int)) (a.den * b.den)

/-- Multiplication. -/
def qmul (a b : Frac) : Frac := qnorm (a.num * b.num) (a.den * b.den)

/-- Negation. -/
def qneg (a : Frac) : Frac := ⟨-a.num, a.den⟩

/-- Reciprocal; the reciprocal of zero is `⟨1, 0⟩`, i.e. the infinity that Go
float division by zero yields. -/
def qinv (a : Frac) : Frac :=
  if a.num < 0 then ⟨-(a.den : Int), a.num.natAbs⟩ else ⟨(a.den : Int), a.num.natAbs⟩

/-- Division. -/
def qdiv (a b : Frac) : Frac := qmul a (qinv b)

/-- Binary maximum (by cross-multiplication; denominators are nonnegative). -/
def qmax (a b : Frac) : Frac :=
  if a.num * (b.den : Int) ≤ b.num * (a.den : Int) then b else a

/-- Embed an integer. -/
def Frac.ofInt (n : Int) : Frac := ⟨n, 1⟩

instance (n : Nat) : OfNat Frac n := ⟨⟨(n : Int), 1⟩⟩

instance : Neg Frac := ⟨qneg⟩

/-- A frame vector (Go `Value`, backed by float64 data). -/
abbrev Value := List Frac

/-- Result of a `Get` call: the Go pair `(Value, error)`. -/
inductive Res where
  | ok (v : Value)
  | err (e : PErr)
deriving DecidableEq

/-- True when a result is a value rather than an error. -/
def Res.isOk : Res → Bool
  | .ok _ => true
  | .err _ => false

/-- The per-node cache `store map[int]Value`, as an association list where the
head shadows the tail. -/
abbrev Cache := List (Int × Value)

/-- Go `cache.get`: pure lookup, never triggers computation. -/
def cacheGet (c : Cache) (i : Int) : Option Value :=
  match c with
  | [] => none
  | (j, v) :: rest => if j = i then some v else cacheGet rest i

/-- Go `cache.set`: store a value under an index (overwrite by shadowing). -/
def cacheSet (c : Cache) (i : Int) (v : Value) : Cache := (i, v) :: c

/-- A compute function (`ProcFunc`): given the frame index and the state of the
upstream world, produce a result and the new upstream state.  The state type is
abstract so that the theorems cover arbitrary upstream behavior. -/
abbrev ComputeFn (σ : Type) := Int → σ → Res × σ

/-- `Proc`: an optional compute function (`bp.f`, nil when unset) together with
its private cache. -/
structure ProcM (σ : Type) where
  f : Option (ComputeFn σ)
  cache : Cache

/-- `Proc.Get` (final snapshot): negative index fails fast with `ErrOOB`; a
cache hit returns without computing; a miss invokes the compute function when
bound, caching only successes; `ErrNoFunc` when no function is bound.  The
fourth component counts how often the compute function was invoked during this
call (the invocation-counter instrumentation of the spec). -/
def procGet (p : ProcM σ) (s : σ) (idx : Int) : Res × ProcM σ × σ × Nat :=
  if idx < 0 then (.err .oob, p, s, 0)
  else
    match cacheGet p.cache idx with
    | some v => (.ok v, p, s, 0)
    | none =>
      match p.f with
      | some f =>
        match f idx s with
        | (.err e, s1) => (.err e, p, s1, 1)
        | (.ok v, s1) => (.ok v, { p with cache := cacheSet p.cache idx v }, s1, 1)
      | none => (.err .noFunc, p, s, 0)

/-- `Proc.Reset`: clear the cache. -/
def procReset (p : ProcM σ) : ProcM σ := { p with cache := [] }

/-- Run a list of `Get` requests against one proc, threading the proc, the
upstream state, and collecting each result plus per-index invocation counts. -/
def runGets : ProcM σ → σ → List Int → List Res × ProcM σ × σ × (Int → Nat)
  | p, s, [] => ([], p, s, fun _ => 0)
  | p, s, idx :: rest =>
    let r := procGet p s idx
    let t := runGets r.2.1 r.2.2.1 rest
    (r.1 :: t.1, t.2.1, t.2.2.1, fun j => (if j = idx then r.2.2.2 else 0) + t.2.2.2 j)

/-- Result of `OneProc.Get`: the Go pair `(Value, error)` where the value is a
possibly-nil pointer, modelled as an `Option`. -/
inductive ResO where
  | ok (v : Option Value)
  | err (e : PErr)
deriving DecidableEq

/-- A one-value compute function (`OneProcFunc`). -/
abbrev OneComputeFn (σ : Type) := σ → ResO × σ

/-- `OneProc`: optional aggregate compute function and the single cached value;
`cache = none` models the Go nil pointer, which is both the initial state and
the result of caching a nil value. -/
structure OneProcM (σ : Type) where
  f : Option (OneComputeFn σ)
  cache : Option Value

/-- `OneProc.Get`: return the cache when non-nil; otherwise invoke the compute
function when bound and store its (possibly nil) result; `ErrNoFunc` otherwise.
The fourth component counts compute invocations during this call. -/
def oneGet (p : OneProcM σ) (s : σ) : ResO × OneProcM σ × σ × Nat :=
  match p.cache with
  | some v => (.ok (some v), p, s, 0)
  | none =>
    match p.f with
    | some f =>
      match f s with
      | (.err e, s1) => (.err e, p, s1, 1)
      | (.ok v, s1) => (.ok v, { p with cache := v }, s1, 1)
    | none => (.err .noFunc, p, s, 0)

/-- The loop of `MaxWin`: scan the (pure, deterministic) upstream framer from
index 0 until `ErrOOB`, keeping the elementwise max.  At index 0 the Go code
initializes the accumulator to -MaxFloat64 and immediately maxes it with the
frame, which equals the frame itself; `acc = none` marks that uninitialized
state.  Fuel bounds the unbounded Go `for` loop. -/
def maxWinLoop (u : Int → Res) : Nat → Int → Option Value → Option ResO
  | 0, _, _ => none
  | fuel + 1, i, acc =>
    match u i with
    | .err .oob => some (.ok acc)
    | .err e => some (.err e)
    | .ok vec =>
      match acc with
      | none => maxWinLoop u fuel (i + 1) (some vec)
      | some m => maxWinLoop u fuel (i + 1) (some (List.zipWith qmax m vec))

/-- `MaxWin`'s compute body with a fuel budget; exhausted fuel is reported with
a model-only error that the Go program (which would loop) never returns. -/
def maxWinF (u : Int → Res) (fuel : Nat) : ResO :=
  match maxWinLoop u fuel 0 none with
  | some r => r
  | none => .err .fuelOut

/-! ### Deep model: the concrete processors driving the verified examples,
evaluated over the graph with a fuel bound (one fuel unit per nested `Get`,
so fuel measures call depth). -/

/-- The processor kinds appearing in the verified examples: the test `slice`
source, the example `Fibo` processor, `MAProc`, `DiffProc` and `Join`. -/
inductive PSpec where
  | slice (data : List Frac)
  | fibo (n : Nat)
  | ma (dim winSize : Nat)
  | diff (dim : Nat) (coeff : List Frac)
  | join
deriving DecidableEq

/-- A wired graph: the processor at each node id and its ordered input list
(`SetInputs` bindings). -/
structure Graph where
  spec : Nat → PSpec
  inputs : Nat → List Nat

/-- Global evaluation state: the private cache of every node. -/
abbrev GState := Nat → Cache

/-- The fresh-stream state: every cache empty. -/
def st0 : GState := fun _ => []

/-- Update one node's cache (`SetCache`). -/
def setCacheG (st : GState) (n : Nat) (i : Int) (v : Value) : GState :=
  fun m => if m = n then cacheSet (st n) i v else st m

/-- The signature of a recursive `Get` call into the graph: state, node id,
frame index; `none` means the fuel budget was exhausted. -/
abbrev RecCall := GState → Nat → Int → Option (Res × GState)

/-- The integer range `[lo..hi]` of a Go `for j := lo; j <= hi; j++` loop. -/
def intRange (lo hi : Int) : List Int :=
  (List.range (hi + 1 - lo).toNat).map (fun k => lo + (k : Int))

/-- Elementwise `narray.Add`. -/
def valAdd (a b : Value) : Value := List.zipWith qadd a b

/-- `narray.Scale`. -/
def valScale (c : Frac) (a : Value) : Value := a.map (fun q => qmul c q)

/-- `narray.AddScaled dst src alpha`: `dst += alpha * src` elementwise. -/
def valAddScaled (dst src : Value) (alpha : Frac) : Value :=
  List.zipWith (fun d s => qadd d (qmul alpha s)) dst src

/-- The test `slice` source: fail with `ErrOOB` outside `[0, len)`, otherwise
return the one-element frame `data[idx:idx+1]`. -/
def sliceF (data : List Frac) (idx : Int) : Res :=
  if idx < 0 ∨ (data.length : Int) ≤ idx then .err .oob
  else .ok [data.getD idx.toNat 0]

/-- The `Fibo` compute function of the example: 1 at indices 0 and 1, `ErrOOB`
outside `[0, n)`, otherwise the sum of input 0 (the self-edge) at `idx - 1` and
`idx - 2`.  Go would panic reading input 0 of an unwired processor; that panic
is the `noFramer` error. -/
def fiboF (r : RecCall) (ins : List Nat) (n : Nat) (st : GState) (idx : Int) :
    Option (Res × GState) :=
  if idx = 0 ∨ idx = 1 then some (.ok [1], st)
  else if idx < 0 ∨ (n : Int) ≤ idx then some (.err .oob, st)
  else
    match ins with
    | [] => some (.err .noFramer, st)
    | i0 :: _ =>
      match r st i0 (idx - 1) with
      | none => none
      | some (.err e, st1) => some (.err e, st1)
      | some (.ok v1, st1) =>
        match r st1 i0 (idx - 2) with
        | none => none
        | some (.err e, st2) => some (.err e, st2)
        | some (.ok v2, st2) => some (.ok (valAdd v2 v1), st2)

/-- The summation loop of `MAProc.Get`: add the input's frames over the index
window, propagating errors. -/
def maSum (r : RecCall) (i0 : Nat) : List Int → GState → Value → Option (Res × GState)
  | [], st, acc => some (.ok acc, st)
  | j :: rest, st, acc =>
    match r st i0 j with
    | none => none
    | some (.err e, st1) => some (.err e, st1)
    | some (.ok v, st1) => maSum r i0 rest st1 (valAdd acc v)

/-- `MAProc.Get`: cache lookup, then average the input over the trailing window
(over only `idx + 1` terms when `idx < winSize`), cache and return.  Note there
is no negative-index check; Go divides 1.0 by 0.0 at `idx = -1` (yielding Inf,
here 1/0 = 0) and still returns the frame with a nil error. -/
def maGetF (r : RecCall) (ins : List Nat) (dim winSize : Nat) (node : Nat)
    (st : GState) (idx : Int) : Option (Res × GState) :=
  match cacheGet (st node) idx with
  | some v => some (.ok v, st)
  | none =>
    let c : Frac :=
      if idx < (winSize : Int) then qdiv 1 (Frac.ofInt (idx + 1))
      else qdiv 1 (Frac.ofInt (winSize : Int))
    let start : Int := if idx < (winSize : Int) then 0 else idx - winSize + 1
    match ins with
    | [] => some (.err .noFramer, st)
    | i0 :: _ =>
      match maSum r i0 (intRange start idx) st (List.replicate dim 0) with
      | none => none
      | some (.err e, st1) => some (.err e, st1)
      | some (.ok sum, st1) =>
        let v := valScale c sum
        some (.ok v, setCacheG st1 node idx v)

/-- The loop of `DiffProc.Get` over the coefficient list (`j` is the loop
counter): read the input at `idx + j + 1` and `idx - j - 1`; when the latter is
out of bounds, replace the whole result with the node's own value at `idx + 1`
and break; otherwise accumulate `coeff[j] * (plus - minus)`. -/
def diffLoop (r : RecCall) (selfId i0 : Nat) (idx : Int) :
    List Frac → Int → GState → Value → Option (Res × GState)
  | [], _, st, res => some (.ok res, st)
  | cj :: rest, j, st, res =>
    match r st i0 (idx + j + 1) with
    | none => none
    | some (.err e, st1) => some (.err e, st1)
    | some (.ok plus, st1) =>
      match r st1 i0 (idx - j - 1) with
      | none => none
      | some (.err PErr.oob, st2) =>
        match r st2 selfId (idx + 1) with
        | none => none
        | some (.err e, st3) => some (.err e, st3)
        | some (.ok v, st3) => some (.ok v, st3)
      | some (.err e, st2) => some (.err e, st2)
      | some (.ok minus, st2) =>
        diffLoop r selfId i0 idx rest (j + 1) st2
          (valAddScaled (valAddScaled res plus cj) minus (-cj))

/-- `DiffProc.Get`: negative index fails fast with `ErrOOB`; cache lookup; run
the weighted-difference loop; cache and return the result. -/
def diffGetF (r : RecCall) (ins : List Nat) (dim : Nat) (coeff : List Frac)
    (node : Nat) (st : GState) (idx : Int) : Option (Res × GState) :=
  if idx < 0 then some (.err .oob, st)
  else
    match cacheGet (st node) idx with
    | some v => some (.ok v, st)
    | none =>
      match ins with
      | [] => some (.err .noFramer, st)
      | i0 :: _ =>
        match diffLoop r node i0 idx coeff 0 st (List.replicate dim 0) with
        | none => none
        | some (.err e, st1) => some (.err e, st1)
        | some (.ok res, st1) => some (.ok res, setCacheG st1 node idx res)

/-- The loop of `Join`'s compute function: get every input at `idx` in wiring
order and append the frames. -/
def joinLoop (r : RecCall) (idx : Int) : List Nat → GState → Value → Option (Res × GState)
  | [], st, acc => some (.ok acc, st)
  | i :: rest, st, acc =>
    match r st i idx with
    | none => none
    | some (.err e, st1) => some (.err e, st1)
    | some (.ok v, st1) => joinLoop r idx rest st1 (acc ++ v)

/-- `Join`'s compute function. -/
def joinF (r : RecCall) (ins : List Nat) (idx : Int) (st : GState) :
    Option (Res × GState) :=
  joinLoop r idx ins st []

/-- The generic `Proc.Get` wrapper shared by the `NewProc`-based processors
(`slice`, `Fibo`, `Join`, all of which bind a compute function): negative index
fails fast, cache hit returns, a miss runs the compute function and caches only
successes. -/
def procWrapG (compute : GState → Option (Res × GState)) (node : Nat)
    (st : GState) (idx : Int) : Option (Res × GState) :=
  if idx < 0 then some (.err .oob, st)
  else
    match cacheGet (st node) idx with
    | some v => some (.ok v, st)
    | none =>
      match compute st with
      | none => none
      | some (.err e, st1) => some (.err e, st1)
      | some (.ok v, st1) => some (.ok v, setCacheG st1 node idx v)

/-- One evaluation layer: dispatch on the node's processor kind, using `r` for
every nested `Get`. -/
def ggetAux (g : Graph) (r : RecCall) (st : GState) (node : Nat) (idx : Int) :
    Option (Res × GState) :=
  match g.spec node with
  | .slice data => procWrapG (fun st1 => some (sliceF data idx, st1)) node st idx
  | .fibo n => procWrapG (fun st1 => fiboF r (g.inputs node) n st1 idx) node st idx
  | .join => procWrapG (fun st1 => joinF r (g.inputs node) idx st1) node st idx
  | .ma dim w => maGetF r (g.inputs node) dim w node st idx
  | .diff dim coeff => diffGetF r (g.inputs node) dim coeff node st idx

/-- The graph evaluator: `gget g fuel st node idx` runs `node.Get(idx)`, where
each nested `Get` consumes one unit of fuel, so `none` means the call stack
would exceed `fuel`. -/
def gget (g : Graph) : Nat → RecCall
  | 0 => fun _ _ _ => none
  | fuel + 1 => ggetAux g (gget g fuel)

/-- `App.Reset`: every registered node of the deep model embeds `Proc` and so
implements `Resetter`; resetting clears every node's cache. -/
def appResetD (_st : GState) : GState := fun _ => []

/-- Run a list of `Get` requests against one node sequentially, threading the
state, as the repository's tests do. -/
def runSeq (g : Graph) (fuel : Nat) (node : Nat) :
    List Int → GState → List (Option Res) × GState
  | [], st => ([], st)
  | i :: rest, st =>
    match gget g fuel st node i with
    | none =>
      let t := runSeq g fuel node rest st
      (none :: t.1, t.2)
    | some (r, st1) =>
      let t := runSeq g fuel node rest st1
      (some r :: t.1, t.2)

/-! ### The concrete wired graphs of the claims -/

/-- The Fibonacci graph of `ExampleApp_Fibonacci`: one `Fibo(11)` node wired
with itself as its sole provider. -/
def fiboG : Graph := { spec := fun _ => .fibo 11, inputs := fun _ => [0] }

/-- The input stream of the moving-average test. -/
def maInput : List Frac := [1, 3, 5, 3, 1, 3, 13, -5, -3, -5]

/-- The moving-average graph of `TestMovingAverage`: node 0 is
`NewMAProc(1, 4, 20)` reading node 1, the `slice` source. -/
def maG : Graph :=
  { spec := fun n => if n = 0 then .ma 1 4 else .slice maInput
    inputs := fun _ => [1] }

/-- The input stream of the weighted-difference test. -/
def diffInput : List Frac := [1, 1, 7, 6, 5, 2, 2, 3, 4, 5, -1]

/-- The weighted-difference graph of `TestDiff`: node 0 is
`NewDiffProc(1, 20, [0,1])` reading node 1, the `slice` source. -/
def diffG : Graph :=
  { spec := fun n => if n = 0 then .diff 1 [0, 1] else .slice diffInput
    inputs := fun _ => [1] }

/-- A concatenation graph: node 0 is `Join`, node 1 the slice `[10]`, node 2
the slice `[20]`; the argument is the provider order passed to `Connect`. -/
def jG (order : List Nat) : Graph :=
  { spec := fun n => if n = 0 then .join else if n = 1 then .slice [10] else .slice [20]
    inputs := fun _ => order }

/-- Get `Fibo(10)`, reset the app, and get it again on the cleared caches,
returning both results. -/
def fibResetRun : Option (Res × Res) :=
  match gget fiboG 12 st0 0 10 with
  | none => none
  | some (r1, st1) =>
    match gget fiboG 12 (appResetD st1) 0 10 with
    | none => none
    | some (r2, _) => some (r1, r2)

/-! ### The registry wiring surface (`App.Connect`) -/

/-- A registered node handle of the final snapshot: its name and whether the
underlying processor implements the `Inputter` interface. -/
structure NodeM where
  name : String
  inputter : Bool
deriving DecidableEq

/-- The registry state relevant to wiring: the recorded consumer-to-providers
bindings (`SetInputs` plus the `app.inputs` book-keeping). -/
structure AppN where
  bindings : List (String × List String)
deriving DecidableEq

/-- `App.Connect` of the final snapshot: panic (modelled as an error) when the
consumer does not implement `Inputter`; otherwise bind the providers, in the
order supplied, as the consumer's inputs. -/
def connectN (app : AppN) (cons : NodeM) (fr : List NodeM) : Option AppN :=
  if cons.inputter then some ⟨(cons.name, fr.map NodeM.name) :: app.bindings⟩
  else none

/-- `App.mustGet` of the string-keyed snapshot: resolve a name in the registry,
panicking (modelled as an error) when it is unknown. -/
def mustGet (procs : List (String × α)) (nm : String) : Option α :=
  (procs.find? (fun q => q.1 == nm)).map (fun q => q.2)

/-- The provider-resolution loop of the string-keyed `App.Connect`: resolve
each provider name in order, failing at the first unknown one. -/
def resolveList (procs : List (String × α)) : List String → Option (List α)
  | [] => some []
  | nm :: rest =>
    match mustGet procs nm with
    | none => none
    | some p =>
      match resolveList procs rest with
      | none => none
      | some ps => some (p :: ps)

/-- The string-keyed `App.Connect`: resolve the consumer and every provider
(panicking on an unknown name), then `SetInputs` the resolved providers in
order; returns the consumer and its bound ordered input list. -/
def connectS (procs : List (String × α)) (cons : String) (fr : List String) :
    Option (α × List α) :=
  match mustGet procs cons with
  | none => none
  | some consProc =>
    match resolveList procs fr with
    | none => none
    | some ins => some (consProc, ins)

/-! ### Lemmas about the generic `Proc.Get` -/

theorem cacheGet_set_self (c : Cache) (i : Int) (v : Value) :
    cacheGet (cacheSet c i v) i = some v := by
  simp [cacheGet, cacheSet]

theorem cacheGet_set_other (c : Cache) (i j : Int) (v : Value) (h : j ≠ i) :
    cacheGet (cacheSet c i v) j = cacheGet c j := by
  have e : cacheGet (cacheSet c i v) j = if i = j then some v else cacheGet c j := rfl
  rw [e, if_neg (fun h1 => h h1.symm)]

theorem procGet_f_eq (p : ProcM σ) (s : σ) (idx : Int) :
    (procGet p s idx).2.1.f = p.f := by
  unfold procGet
  by_cases h0 : idx < 0
  · simp [h0]
  · simp only [if_neg h0]
    cases hc : cacheGet p.cache idx with
    | some v => simp
    | none =>
      cases hf : p.f with
      | none => simp [hf]
      | some f =>
        rcases hr : f idx s with ⟨r, s1⟩
        cases r <;> simp [hf, hr]

theorem procGet_hit (p : ProcM σ) (s : σ) (i : Int) (v : Value)
    (h0 : 0 ≤ i) (h : cacheGet p.cache i = some v) :
    procGet p s i = (.ok v, p, s, 0) := by
  unfold procGet
  rw [if_neg (by omega), h]

theorem procGet_miss_ok (p : ProcM σ) (f : ComputeFn σ) (s s1 : σ) (i : Int) (v : Value)
    (h0 : 0 ≤ i) (hf : p.f = some f) (hc : cacheGet p.cache i = none)
    (hr : f i s = (.ok v, s1)) :
    procGet p s i = (.ok v, { p with cache := cacheSet p.cache i v }, s1, 1) := by
  unfold procGet
  simp only [if_neg (show ¬ i < 0 by omega), hc, hf, hr]

theorem procGet_miss_count (p : ProcM σ) (f : ComputeFn σ) (s : σ) (i : Int)
    (h0 : 0 ≤ i) (hf : p.f = some f) (hc : cacheGet p.cache i = none) :
    (procGet p s i).2.2.2 = 1 := by
  unfold procGet
  simp only [if_neg (show ¬ i < 0 by omega), hc, hf]
  rcases hr : f i s with ⟨r, s1⟩
  cases r <;> simp [hr]

theorem procGet_mono (p : ProcM σ) (s : σ) (idx j : Int) (w : Value)
    (h : cacheGet p.cache j = some w) :
    cacheGet ((procGet p s idx).2.1).cache j = some w := by
  unfold procGet
  by_cases h0 : idx < 0
  · simpa [h0] using h
  · simp only [if_neg h0]
    cases hc : cacheGet p.cache idx with
    | some v => simpa using h
    | none =>
      cases hf : p.f with
      | none => simpa using h
      | some f =>
        rcases hr : f idx s with ⟨r, s1⟩
        cases r with
        | err e => simpa [hr] using h
        | ok v =>
          by_cases hji : j = idx
          · rw [hji] at h; rw [h] at hc; cases hc
          · simpa [hr, cacheGet_set_other _ _ _ _ hji] using h

theorem procGet_other (p : ProcM σ) (s : σ) (idx j : Int) (hji : j ≠ idx) :
    cacheGet ((procGet p s idx).2.1).cache j = cacheGet p.cache j := by
  unfold procGet
  by_cases h0 : idx < 0
  · simp [h0]
  · simp only [if_neg h0]
    cases hc : cacheGet p.cache idx with
    | some v => simp
    | none =>
      cases hf : p.f with
      | none => simp
      | some f =>
        rcases hr : f idx s with ⟨r, s1⟩
        cases r with
        | err e => simp [hr]
        | ok v => simp [hr, cacheGet_set_other _ _ _ _ hji]

/-- Once a value is cached at `i`, a run of requests performs no further
compute invocation at `i` and answers every request at `i` from the cache. -/
theorem runGets_cached (f : ComputeFn σ) (i : Int) (v : Value) (h0 : 0 ≤ i) :
    ∀ (l : List Int) (p : ProcM σ) (s : σ), p.f = some f →
      cacheGet p.cache i = some v →
      (runGets p s l).2.2.2 i = 0 ∧
        ∀ k : Nat, l[k]? = some i → (runGets p s l).1[k]? = some (.ok v) := by
  intro l
  induction l with
  | nil => intro p s _ _; simp [runGets]
  | cons idx rest ih =>
    intro p s hf hc
    by_cases hii : i = idx
    · subst hii
      rw [runGets, procGet_hit p s i v h0 hc]
      have hrest := ih p s hf hc
      constructor
      · simpa using hrest.1
      · intro k hk
        cases k with
        | zero => simp
        | succ k1 =>
          simp only [List.getElem?_cons_succ] at hk ⊢
          exact hrest.2 k1 hk
    · rw [runGets]
      have hf1 : (procGet p s idx).2.1.f = some f := by rw [procGet_f_eq]; exact hf
      have hc1 : cacheGet ((procGet p s idx).2.1).cache i = some v :=
        procGet_mono p s idx i v hc
      have hrest := ih (procGet p s idx).2.1 (procGet p s idx).2.2.1 hf1 hc1
      constructor
      · simpa [hii] using hrest.1
      · intro k hk
        cases k with
        | zero =>
          simp only [List.getElem?_cons_zero] at hk
          cases hk; exact absurd rfl hii
        | succ k1 =>
          simp only [List.getElem?_cons_succ] at hk ⊢
          exact hrest.2 k1 hk

/-- From a state where index `i` is uncached, a run of requests invokes the
compute function at `i` exactly once when `i` is requested at all, and all
requests at `i` receive one and the same value. -/
theorem runGets_fresh (f : ComputeFn σ) (i : Int) (h0 : 0 ≤ i)
    (hsucc : ∀ t : σ, ∃ v t1, f i t = (.ok v, t1)) :
    ∀ (l : List Int) (p : ProcM σ) (s : σ), p.f = some f →
      cacheGet p.cache i = none →
      (runGets p s l).2.2.2 i = (if i ∈ l then 1 else 0) ∧
        ∃ v, ∀ k : Nat, l[k]? = some i → (runGets p s l).1[k]? = some (.ok v) := by
  intro l
  induction l with
  | nil =>
    intro p s _ _
    refine ⟨by simp [runGets], [], ?_⟩
    simp [runGets]
  | cons idx rest ih =>
    intro p s hf hc
    by_cases hii : i = idx
    · subst hii
      obtain ⟨v, t1, hft⟩ := hsucc s
      rw [runGets, procGet_miss_ok p f s t1 i v h0 hf hc hft]
      have hrest := runGets_cached f i v h0 rest
        { p with cache := cacheSet p.cache i v } t1 hf (cacheGet_set_self _ _ _)
      refine ⟨by simpa using hrest.1, v, ?_⟩
      intro k hk
      cases k with
      | zero => simp
      | succ k1 =>
        simp only [List.getElem?_cons_succ] at hk ⊢
        exact hrest.2 k1 hk
    · rw [runGets]
      have hf1 : (procGet p s idx).2.1.f = some f := by rw [procGet_f_eq]; exact hf
      have hc1 : cacheGet ((procGet p s idx).2.1).cache i = none := by
        rw [procGet_other p s idx i hii]; exact hc
      have hrest := ih (procGet p s idx).2.1 (procGet p s idx).2.2.1 hf1 hc1
      constructor
      · have hmem : (i ∈ idx :: rest) = (i ∈ rest) := by simp [hii]
        simpa [hii, hmem] using hrest.1
      · obtain ⟨v, hv⟩ := hrest.2
        refine ⟨v, ?_⟩
        intro k hk
        cases k with
        | zero =>
          simp only [List.getElem?_cons_zero] at hk
          cases hk; exact absurd rfl hii
        | succ k1 =>
          simp only [List.getElem?_cons_succ] at hk ⊢
          exact hv k1 hk

/-! ### Claim theorems -/

/-- C1: for every Proc with a bound compute function and every index `i ≥ 0`
(uncached on this fresh stream, compute succeeding), an arbitrary request
sequence invokes the compute function at `i` exactly once when `i` is
requested, all requests at `i` return one and the same value, and a cache
entry, once set, is never overwritten with a different value. -/
theorem claim_C1 (σ : Type) (f : ComputeFn σ) (c : Cache) (s : σ) (i : Int)
    (l : List Int) (h0 : 0 ≤ i) (hc : cacheGet c i = none)
    (hsucc : ∀ t : σ, ∃ v t1, f i t = (.ok v, t1)) :
    ((runGets ⟨some f, c⟩ s l).2.2.2 i = (if i ∈ l then 1 else 0) ∧
      ∃ v, ∀ k : Nat, l[k]? = some i →
        (runGets (⟨some f, c⟩ : ProcM σ) s l).1[k]? = some (.ok v)) ∧
    ∀ (p : ProcM σ) (t : σ) (idx j : Int) (w : Value),
      cacheGet p.cache j = some w →
      cacheGet ((procGet p t idx).2.1).cache j = some w := by
  refine ⟨runGets_fresh f i h0 hsucc l ⟨some f, c⟩ s rfl hc, ?_⟩
  intro p t idx j w hw
  exact procGet_mono p t idx j w hw

/-- Witness for C1 at a concrete proc and request list. -/
theorem claim_C1_witness :
    (runGets (⟨some (fun _ t => (.ok [1], t)), []⟩ : ProcM Unit) () [0, 2, 0]).2.2.2 0
      = (if (0 : ℤ) ∈ [(0 : ℤ), 2, 0] then 1 else 0) :=
  (claim_C1 Unit (fun _ t => (.ok [1], t)) [] () 0 [0, 2, 0] (by decide) rfl
    (fun t => ⟨[1], t, rfl⟩)).1.1

/-- C2 as amended: the generic `Proc.Get` and `DiffProc.Get` fail immediately
with `ErrOOB` at every negative index, invoking no compute function and
leaving every cache untouched; `MAProc.Get` lacks this short circuit (see the
counterexample). -/
theorem claim_C2 :
    (∀ (σ : Type) (p : ProcM σ) (s : σ) (idx : Int), idx < 0 →
      procGet p s idx = (.err .oob, p, s, 0))
    ∧ ∀ (g : Graph) (dim : Nat) (coeff : List Frac) (node : Nat) (st : GState)
        (fuel : Nat) (idx : Int), g.spec node = .diff dim coeff → idx < 0 →
        gget g (fuel + 1) st node idx = some (.err .oob, st) := by
  constructor
  · intro σ p s idx h
    unfold procGet
    rw [if_pos h]
  · intro g dim coeff node st fuel idx hspec h
    show ggetAux g (gget g fuel) st node idx = some (.err .oob, st)
    unfold ggetAux
    rw [hspec]
    show diffGetF (gget g fuel) (g.inputs node) dim coeff node st idx = _
    unfold diffGetF
    rw [if_pos h]

/-- Witness for C2 (amended) at a concrete proc and index. -/
theorem claim_C2_witness :
    procGet (⟨some (fun _ t => (.ok [1], t)), []⟩ : ProcM Unit) () (-1)
      = (.err .oob, ⟨some (fun _ t => (.ok [1], t)), []⟩, (), 0) :=
  (claim_C2.1 Unit ⟨some (fun _ t => (.ok [1], t)), []⟩ () (-1) (by decide))

/-- Counterexample to C2 as stated: `MAProc.Get(-1)` on the moving-average
graph returns a value with a nil error (in Go a NaN frame after dividing 1.0
by 0.0; here the frame `[0]`) instead of `ErrOOB`, and it writes that frame
into the cache at index -1. -/
theorem claim_C2_counterexample :
    (gget maG 5 st0 0 (-1)).map
        (fun q => (q.1.isOk, (cacheGet (q.2 0) (-1)).isSome)) = some (true, true) := by
  decide

/-- C3: when the compute function fails at an uncached index, `Proc.Get`
returns that exact error after exactly one invocation (no internal retry),
leaves the proc (in particular its cache) unchanged, and a later `Get` at the
same index invokes the compute function again. -/
theorem claim_C3 (σ : Type) (f : ComputeFn σ) (c : Cache) (s s1 : σ) (idx : Int)
    (e : PErr) (h0 : 0 ≤ idx) (hc : cacheGet c idx = none)
    (hr : f idx s = (.err e, s1)) :
    procGet (⟨some f, c⟩ : ProcM σ) s idx = (.err e, ⟨some f, c⟩, s1, 1) ∧
    (procGet (⟨some f, c⟩ : ProcM σ) s1 idx).2.2.2 = 1 := by
  constructor
  · unfold procGet
    simp only [if_neg (show ¬ idx < 0 by omega), hc, hr]
  · exact procGet_miss_count ⟨some f, c⟩ f s1 idx h0 rfl hc

/-- Witness for C3 at a concrete failing compute function. -/
theorem claim_C3_witness :
    procGet (⟨some (fun _ t => (.err .algo, t)), []⟩ : ProcM Unit) () 0
      = (.err .algo, ⟨some (fun _ t => (.err .algo, t)), []⟩, (), 1) ∧
    (procGet (⟨some (fun _ t => (.err .algo, t)), []⟩ : ProcM Unit) () 0).2.2.2 = 1 :=
  claim_C3 Unit (fun _ t => (.err .algo, t)) [] () () 0 .algo (by decide) rfl rfl

/-- C4: the self-wired Fibonacci node terminates at every requested index
within a call depth linear in the index (fuel `idx + 2`, one unit per nested
`Get`), and `Get(10)` returns 89. -/
theorem claim_C4 :
    (∀ idx : ℤ, 0 ≤ idx → (gget fiboG (idx.toNat + 2) st0 0 idx).isSome = true)
    ∧ (gget fiboG 12 st0 0 10).map Prod.fst = some (.ok [89]) := by
  constructor
  · intro idx h0
    by_cases h10 : idx ≤ 10
    · interval_cases idx <;> decide
    · have e1 : gget fiboG (idx.toNat + 2) st0 0 idx
          = procWrapG
              (fun st1 => fiboF (gget fiboG (idx.toNat + 1)) (fiboG.inputs 0) 11 st1 idx)
              0 st0 idx := rfl
      rw [e1]
      simp only [procWrapG, st0, cacheGet, fiboF]
      split_ifs <;> first | rfl | (exfalso; omega)
  · decide

/-- Witness for C4 at index 10. -/
theorem claim_C4_witness :
    (gget fiboG ((10 : ℤ).toNat + 2) st0 0 10).isSome = true :=
  claim_C4.1 10 (by decide)

/-- C5: the moving-average node with window 4 over the test stream produces
exactly the expected averages at indices 0..9 (averaging only `i + 1` terms
while `i` is smaller than the window). -/
theorem claim_C5 :
    (runSeq maG 20 0 [0, 1, 2, 3, 4, 5, 6, 7, 8, 9] st0).1
      = ([1, 2, 3, 3, 3, 3, 5, 3, 2, 0] : List Frac).map (fun q => some (.ok [q])) := by
  decide

/-- C6: the weighted-difference node with coefficients `[0, 1]` over the test
stream produces exactly the expected differences at indices 0..8, and `Get(i)`
fails with `ErrOOB` for every `i ≥ 9 = len(input) - len(coeff)`. -/
theorem claim_C6 :
    (runSeq diffG 30 0 [0, 1, 2, 3, 4, 5, 6, 7, 8, 9] st0).1
      = ([4, 4, 4, 1, -5, -3, -1, 3, -3] : List Frac).map (fun q => some (.ok [q]))
        ++ [some (.err .oob)]
    ∧ ∀ i : ℤ, 9 ≤ i → (gget diffG 5 st0 0 i).map Prod.fst = some (.err .oob) := by
  constructor
  · decide
  · intro i hi
    by_cases h9 : i ≤ 9
    · have h : i = 9 := by omega
      subst h
      decide
    · have e1 : gget diffG 5 st0 0 i
          = diffGetF (gget diffG 4) [1] 1 [0, 1] 0 st0 i := rfl
      have hlen : ((diffInput.length : ℕ) : ℤ) = 11 := rfl
      have e2 : ∀ st : GState, gget diffG 4 st 1 (i + 0 + 1)
          = procWrapG (fun st1 => some (sliceF diffInput (i + 0 + 1), st1)) 1 st
              (i + 0 + 1) := fun st => rfl
      rw [e1]
      simp only [diffGetF, st0, cacheGet, diffLoop, e2, procWrapG, sliceF, hlen]
      split_ifs <;> first | rfl | (exfalso; omega)

/-- Witness for C6 at index 9. -/
theorem claim_C6_witness :
    (gget diffG 5 st0 0 9).map Prod.fst = some (.err .oob) :=
  claim_C6.2 9 (by decide)

/-- C7: a `Join` node over providers wired in order `[a, b]` returns, at every
index where both providers succeed, the concatenation of `a`'s frame followed
by `b`'s frame; wiring the same providers in the swapped order swaps the
halves, so connection order changes the output. -/
theorem claim_C7 :
    (∀ (g : Graph) (n a b fuel : Nat) (st st1 st2 : GState) (i : Int)
        (va vb : Value), g.spec n = .join → g.inputs n = [a, b] → 0 ≤ i →
        cacheGet (st n) i = none →
        gget g fuel st a i = some (.ok va, st1) →
        gget g fuel st1 b i = some (.ok vb, st2) →
        (gget g (fuel + 1) st n i).map Prod.fst = some (.ok (va ++ vb)))
    ∧ (gget (jG [1, 2]) 2 st0 0 0).map Prod.fst = some (.ok [10, 20])
    ∧ (gget (jG [2, 1]) 2 st0 0 0).map Prod.fst = some (.ok [20, 10])
    ∧ Res.ok [10, 20] ≠ Res.ok [20, 10] := by
  refine ⟨?_, by decide, by decide, by decide⟩
  intro g n a b fuel st st1 st2 i va vb hspec hins hpos hcache ha hb
  show (ggetAux g (gget g fuel) st n i).map Prod.fst = some (.ok (va ++ vb))
  simp only [ggetAux, hspec, procWrapG, if_neg (show ¬ i < 0 by omega), hcache,
    joinF, hins, joinLoop, ha, hb, List.nil_append]
  rfl

/-- Witness for C7 at the concrete two-provider graph. -/
theorem claim_C7_witness :
    (gget (jG [1, 2]) 2 st0 0 0).map Prod.fst = some (.ok ([10] ++ [20])) :=
  claim_C7.1 (jG [1, 2]) 0 1 2 1 st0 (setCacheG st0 1 0 [10])
    (setCacheG (setCacheG st0 1 0 [10]) 2 0 [20]) 0 [10] [20]
    rfl rfl (by decide) rfl rfl rfl

/-- C8: after `App.Reset` every node's cache is empty; a `Get` on a reset Proc
with a bound compute function at a valid index invokes the compute function
(again); and rerunning `Fibo(10)` after a reset recomputes the same value. -/
theorem claim_C8 :
    (∀ (st : GState) (n : Nat) (i : Int), cacheGet (appResetD st n) i = none)
    ∧ (∀ (σ : Type) (p : ProcM σ) (f : ComputeFn σ) (s : σ) (idx : Int),
        p.f = some f → 0 ≤ idx → (procGet (procReset p) s idx).2.2.2 = 1)
    ∧ fibResetRun = some (.ok [89], .ok [89]) := by
  refine ⟨fun st n i => rfl, ?_, by decide⟩
  intro σ p f s idx hf h0
  exact procGet_miss_count (procReset p) f s idx h0 hf rfl

/-- Witness for C8: a reset proc with a previously cached entry recomputes. -/
theorem claim_C8_witness :
    (procGet (procReset (⟨some (fun _ t => (.ok [1], t)), [(0, [2])]⟩ : ProcM Unit))
        () 0).2.2.2 = 1 :=
  claim_C8.2.1 Unit ⟨some (fun _ t => (.ok [1], t)), [(0, [2])]⟩
    (fun _ t => (.ok [1], t)) () 0 rfl (by decide)

/-! Lemmas about provider resolution in the string-keyed `Connect`. -/

theorem resolveList_unknown (procs : List (String × α)) :
    ∀ (fr : List String) (nm : String), nm ∈ fr → mustGet procs nm = none →
      resolveList procs fr = none := by
  intro fr
  induction fr with
  | nil => intro nm h; cases h
  | cons hd tl ih =>
    intro nm hmem hnone
    rcases List.mem_cons.mp hmem with h1 | h2
    · subst h1
      unfold resolveList
      rw [hnone]
    · unfold resolveList
      cases hhd : mustGet procs hd with
      | none => rfl
      | some p => rw [ih nm h2 hnone]

theorem resolveList_ok (procs : List (String × α)) :
    ∀ (fr : List String) (ins : List α), resolveList procs fr = some ins →
      ins.length = fr.length ∧
      ∀ (k : Nat) (hk : k < fr.length) (hk2 : k < ins.length),
        mustGet procs (fr.get ⟨k, hk⟩) = some (ins.get ⟨k, hk2⟩) := by
  intro fr
  induction fr with
  | nil =>
    intro ins h
    unfold resolveList at h
    cases h
    exact ⟨rfl, fun k hk => absurd hk (by simp)⟩
  | cons hd tl ih =>
    intro ins h
    unfold resolveList at h
    cases hhd : mustGet procs hd with
    | none => rw [hhd] at h; cases h
    | some p =>
      rw [hhd] at h
      cases htl : resolveList procs tl with
      | none => rw [htl] at h; cases h
      | some ps =>
        rw [htl] at h
        cases h
        obtain ⟨hlen, hget⟩ := ih ps htl
        refine ⟨by simp [hlen], ?_⟩
        intro k hk hk2
        cases k with
        | zero => simpa using hhd
        | succ k1 => simpa using hget k1 (by simpa using hk) (by simpa using hk2)

/-- C9: `Connect` fails fast when the consumer does not implement `Inputter`
(the Node-keyed snapshot) and when any provider handle is unknown (the
string-keyed snapshot, where resolution panics at the first unknown name); on
success the providers are bound as the consumer's ordered input list exactly
in the order supplied. -/
theorem claim_C9 :
    (∀ (app : AppN) (cons : NodeM) (fr : List NodeM),
      cons.inputter = false → connectN app cons fr = none)
    ∧ (∀ (app : AppN) (cons : NodeM) (fr : List NodeM),
      cons.inputter = true →
      connectN app cons fr = some ⟨(cons.name, fr.map NodeM.name) :: app.bindings⟩)
    ∧ (∀ (α : Type) (procs : List (String × α)) (cons : String) (fr : List String)
        (nm : String), nm ∈ fr → mustGet procs nm = none →
        connectS procs cons fr = none)
    ∧ ∀ (α : Type) (procs : List (String × α)) (cons : String) (fr : List String)
        (consP : α) (ins : List α), connectS procs cons fr = some (consP, ins) →
        mustGet procs cons = some consP ∧ ins.length = fr.length ∧
        ∀ (k : Nat) (hk : k < fr.length) (hk2 : k < ins.length),
          mustGet procs (fr.get ⟨k, hk⟩) = some (ins.get ⟨k, hk2⟩) := by
  refine ⟨?_, ?_, ?_, ?_⟩
  · intro app cons fr h
    simp [connectN, h]
  · intro app cons fr h
    simp [connectN, h]
  · intro α procs cons fr nm hmem hnone
    unfold connectS
    cases hc : mustGet procs cons with
    | none => rfl
    | some c => rw [resolveList_unknown procs fr nm hmem hnone]
  · intro α procs cons fr consP ins h
    unfold connectS at h
    cases hc : mustGet procs cons with
    | none => rw [hc] at h; cases h
    | some c =>
      rw [hc] at h
      cases hres : resolveList procs fr with
      | none => rw [hres] at h; cases h
      | some ps =>
        rw [hres] at h
        cases h
        exact ⟨rfl, (resolveList_ok procs fr ins hres).1, (resolveList_ok procs fr ins hres).2⟩

/-- Witness for C9 at a concrete registry and wiring calls. -/
theorem claim_C9_witness :
    connectN ⟨[]⟩ ⟨("y"), false⟩ [] = none
    ∧ connectN ⟨[]⟩ ⟨("y"), true⟩ [⟨("a"), true⟩, ⟨("b"), false⟩]
        = some ⟨[(("y"), [("a"), ("b")])]⟩
    ∧ connectS [(("x"), (1 : Nat))] ("y") [("x"), ("z")] = none
    ∧ (mustGet [(("x"), (1 : Nat)), (("y"), 2)] ("y") = some 2
        ∧ ([1] : List Nat).length = [("x")].length
        ∧ ∀ (k : Nat) (hk : k < [("x")].length) (hk2 : k < ([1] : List Nat).length),
            mustGet [(("x"), (1 : Nat)), (("y"), 2)] (([("x")]).get ⟨k, hk⟩)
              = some (([1] : List Nat).get ⟨k, hk2⟩)) :=
  ⟨claim_C9.1 ⟨[]⟩ ⟨("y"), false⟩ [] rfl,
   claim_C9.2.1 ⟨[]⟩ ⟨("y"), true⟩ [⟨("a"), true⟩, ⟨("b"), false⟩] rfl,
   claim_C9.2.2.1 Nat [(("x"), 1)] ("y") [("x"), ("z")] ("z") (by decide) rfl,
   claim_C9.2.2.2 Nat [(("x"), 1), (("y"), 2)] ("y") [("x")] 2 [1] rfl⟩

/-- C10: `OneProc.Get` caches only non-nil successes: a non-nil value is
returned by every later `Get` with no reinvocation, while a nil success (as
`MaxWin` produces when its upstream is already exhausted at index 0) leaves
the cache nil, so every subsequent `Get` invokes the compute function again. -/
theorem claim_C10 :
    (∀ (σ : Type) (f : OneComputeFn σ) (s s1 : σ) (v : Value),
      f s = (.ok (some v), s1) →
      oneGet (⟨some f, none⟩ : OneProcM σ) s = (.ok (some v), ⟨some f, some v⟩, s1, 1) ∧
      oneGet (⟨some f, some v⟩ : OneProcM σ) s1 = (.ok (some v), ⟨some f, some v⟩, s1, 0))
    ∧ (∀ (σ : Type) (f : OneComputeFn σ) (s s1 : σ),
      f s = (.ok none, s1) →
      oneGet (⟨some f, none⟩ : OneProcM σ) s = (.ok none, ⟨some f, none⟩, s1, 1))
    ∧ (∀ (σ : Type) (p : OneProcM σ) (f : OneComputeFn σ) (s : σ),
      p.f = some f → p.cache = none → (oneGet p s).2.2.2 = 1)
    ∧ ∀ u : Int → Res, u 0 = .err .oob → maxWinF u 1 = .ok none := by
  refine ⟨?_, ?_, ?_, ?_⟩
  · intro σ f s s1 v hr
    constructor
    · unfold oneGet
      simp only [hr]
    · unfold oneGet
      rfl
  · intro σ f s s1 hr
    unfold oneGet
    simp only [hr]
  · intro σ p f s hf hc
    unfold oneGet
    simp only [hc, hf]
    rcases hr : f s with ⟨r, s1⟩
    cases r <;> simp [hr]
  · intro u h
    unfold maxWinF maxWinLoop
    rw [h]

/-- Witness for C10: a non-nil aggregate is cached, and `MaxWin` over an empty
stream yields a nil value. -/
theorem claim_C10_witness :
    (oneGet (⟨some (fun t => (.ok (some [5]), t)), none⟩ : OneProcM Unit) ()
        = (.ok (some [5]), ⟨some (fun t => (.ok (some [5]), t)), some [5]⟩, (), 1) ∧
      oneGet (⟨some (fun t => (.ok (some [5]), t)), some [5]⟩ : OneProcM Unit) ()
        = (.ok (some [5]), ⟨some (fun t => (.ok (some [5]), t)), some [5]⟩, (), 0))
    ∧ oneGet (⟨some (fun t => (.ok none, t)), none⟩ : OneProcM Unit) ()
        = (.ok none, ⟨some (fun t => (.ok none, t)), none⟩, (), 1)
    ∧ (oneGet (⟨some (fun t => (.ok none, t)), none⟩ : OneProcM Unit) ()).2.2.2 = 1
    ∧ maxWinF (fun _ => .err .oob) 1 = .ok none :=
  ⟨claim_C10.1 Unit (fun t => (.ok (some [5]), t)) () () [5] rfl,
   claim_C10.2.1 Unit (fun t => (.ok none, t)) () () rfl,
   claim_C10.2.2.1 Unit ⟨some (fun t => (.ok none, t)), none⟩ (fun t => (.ok none, t)) () rfl rfl,
   claim_C10.2.2.2 (fun _ => .err .oob) rfl⟩

end Dsp
